import Mathlib

/- Shallow embedding of the runtime core of the nestjs-smart-modules library.
   The TypeScript sources embedded here are src/utils/helpers.ts, src/types.ts
   and src/smartModule.ts together with src/modules.ts (the latter holds
   moduleFromSmartConfig, moduleFromSmartImport, applyPropsToSmartConfig,
   instantiateSmartConfig and instantiateExtendedSmartConfig).

   Modelling decisions:
   - a JavaScript value is `JSVal`; objects are association lists of own
     enumerable string-keyed properties in insertion order, which is the
     order `Object.entries` yields;
   - fallible JavaScript evaluation is `Except JSErr`; reading a property of
     `undefined` or `null`, or calling `Object.entries` on them, is the
     TypeError it is at runtime; `throw new Error(msg)` is `JSErr.jsError msg`;
   - a class used as a configuration schema is `SmartConfig`: its diagnostic
     `name`, its static `label`, `prefix` and `token` fields (the `prefix`
     field is spelled `pfx` because `prefix` is a Lean keyword), and the own
     properties a fresh instance carries (`defaults`);
   - the untyped unions of the source are closed tagged variants whose tags
     are exactly the images of the source type guards `isSmartConfig`,
     `isExtendedSmartConfig`, `isSmartImport`, `isExtendedSmartImport` and
     `isAsyncParams`; values recognised by none of the guards sit in the
     `other` constructor;
   - a promise that has been awaited is just its value, so the `useFactory`
     of an async-resolution descriptor is a Lean function returning
     `Except JSErr JSVal`;
   - `createNamedClass` allocates a class whose only observable attribute is
     its name, so a synthetic module identity is modelled by that name. -/

set_option autoImplicit false

inductive JSVal : Type where
  | undefined : JSVal
  | null : JSVal
  | vbool : Bool → JSVal
  | vnum : Int → JSVal
  | vstr : String → JSVal
  | vobj : List (String × JSVal) → JSVal

def isUndefined : JSVal → Bool
  | .undefined => true
  | _ => false

inductive JSErr : Type where
  | typeError : JSErr
  | jsError : String → JSErr
deriving DecidableEq

/- Association-list machinery for object semantics. `jsLookup` is property
   read on an object (first matching key wins; a real object has unique
   keys). `setKey` is the property-assignment step of CopyDataProperties:
   an existing key keeps its position and gets the new value, a new key is
   appended. `objFromEntries` is `Object.fromEntries` and also the result
   of spreading a list of entries into a fresh object literal. -/

def jsLookup : List (String × JSVal) → String → Option JSVal
  | [], _ => none
  | kv :: rest, k => if kv.1 = k then some kv.2 else jsLookup rest k

def setKey : List (String × JSVal) → String → JSVal → List (String × JSVal)
  | [], k, v => [(k, v)]
  | kv :: rest, k, v => if kv.1 = k then (k, v) :: rest else kv :: setKey rest k v

def objFromEntries (es : List (String × JSVal)) : List (String × JSVal) :=
  es.foldl (fun acc kv => setKey acc kv.1 kv.2) []

/- Index entries of a primitive string, as `Object.entries` sees them. -/
def strIndexEntries (s : String) : List (String × JSVal) :=
  s.toList.enum.map (fun ic => (toString ic.1, JSVal.vstr (String.mk [ic.2])))

/- Object.entries: throws a TypeError on undefined and null, yields index
   entries on strings, and the empty list on the remaining primitives. -/
def jsEntries : JSVal → Except JSErr (List (String × JSVal))
  | .undefined => .error .typeError
  | .null => .error .typeError
  | .vobj fs => .ok fs
  | .vstr s => .ok (strIndexEntries s)
  | .vbool _ => .ok []
  | .vnum _ => .ok []

/- Property read obj[k]: throws a TypeError on undefined and null, reads an
   own property on objects (absent keys give undefined), and on the
   primitives yields undefined apart from the length of a string. -/
def jsIndex : JSVal → String → Except JSErr JSVal
  | .undefined, _ => .error .typeError
  | .null, _ => .error .typeError
  | .vobj fs, k => .ok ((jsLookup fs k).getD .undefined)
  | .vstr s, k =>
      if k = "length" then .ok (.vnum (s.length : Int))
      else .ok ((jsLookup (strIndexEntries s) k).getD .undefined)
  | .vbool _, _ => .ok .undefined
  | .vnum _, _ => .ok .undefined

/- helpers.ts pickLabel: `label ? obj[label] : obj`; an absent label and the
   empty string are both falsy. -/
def pickLabel (obj : JSVal) : Option String → Except JSErr JSVal
  | some l => if l = "" then .ok obj else jsIndex obj l
  | none => .ok obj

/- helpers.ts filterByPrefix: keeps the entries whose key starts with the
   prefix, rebuilding a fresh object; a falsy prefix returns obj itself. -/
def filterByPrefix (obj : JSVal) : Option String → Except JSErr JSVal
  | some p =>
      if p = "" then .ok obj
      else do
        let es ← jsEntries obj
        .ok (.vobj (objFromEntries (es.filter (fun kv => kv.1.startsWith p))))
  | none => .ok obj

/- helpers.ts removePrefix: drops prefix.length characters from every key,
   rebuilding a fresh object; a falsy prefix returns obj itself. -/
def removePrefix (obj : JSVal) : Option String → Except JSErr JSVal
  | some p =>
      if p = "" then .ok obj
      else do
        let es ← jsEntries obj
        .ok (.vobj (objFromEntries (es.map (fun kv => (kv.1.drop p.length, kv.2)))))
  | none => .ok obj

/- helpers.ts pickLabeledAndPrefixed: label lookup, then prefix filter, then
   prefix strip. -/
def pickLabeledAndPrefixed (obj : JSVal) (label pfx : Option String) : Except JSErr JSVal := do
  let l ← pickLabel obj label
  let f ← filterByPrefix l pfx
  removePrefix f pfx

/- types.ts SmartConfig: a schema class. `defaults` is the own-property list
   of a fresh instance, `label`, `pfx` and `token` are the static fields. -/
structure SmartConfig where
  name : String
  label : Option String
  pfx : Option String
  token : Option String
  defaults : List (String × JSVal)

/- types.ts ExtendedSmartConfig: the wrapper object around a schema class. -/
structure ExtendedSmartConfig where
  label : Option String
  pfx : Option String
  token : Option String
  smartConfig : SmartConfig

/- A value offered as a configuration source: the three cases are the images
   of isSmartConfig, isExtendedSmartConfig, and everything both reject. -/
inductive AnySmartConfig : Type where
  | cls : SmartConfig → AnySmartConfig
  | ext : ExtendedSmartConfig → AnySmartConfig
  | other : JSVal → AnySmartConfig

def isSmartConfig : AnySmartConfig → Bool
  | .cls _ => true
  | _ => false

def isExtendedSmartConfig : AnySmartConfig → Bool
  | .ext _ => true
  | _ => false

/- modules.ts applyPropsToSmartConfig: spread a fresh instance, then spread
   Object.fromEntries of the defined-valued entries of the override object.
   Object.entries throws on undefined and null override objects. -/
def applyPropsToSmartConfig (config : SmartConfig) (overrideObj : JSVal) : Except JSErr JSVal := do
  let es ← jsEntries overrideObj
  .ok (.vobj (objFromEntries (config.defaults ++ objFromEntries (es.filter (fun kv => !isUndefined kv.2)))))

/- modules.ts instantiateSmartConfig. -/
def instantiateSmartConfig (config : SmartConfig) (arg : JSVal) : Except JSErr JSVal := do
  let picked ← pickLabeledAndPrefixed arg config.label config.pfx
  applyPropsToSmartConfig config picked

/- modules.ts instantiateExtendedSmartConfig: a label or prefix of string
   type on the wrapper wins over the static one of the wrapped schema. -/
def instantiateExtendedSmartConfig (config : ExtendedSmartConfig) (arg : JSVal) : Except JSErr JSVal := do
  let effLabel := match config.label with
    | some l => some l
    | none => config.smartConfig.label
  let effPfx := match config.pfx with
    | some p => some p
    | none => config.smartConfig.pfx
  let picked ← pickLabeledAndPrefixed arg effLabel effPfx
  applyPropsToSmartConfig config.smartConfig picked

/- JSON.stringify, restricted to the value grammar of the model: undefined
   has no serialization (none); inside an object an unserialisable value
   drops its entry. String escaping is not modelled. -/
def quoteStr (s : String) : String := "\"" ++ s ++ "\""

mutual
def jsonStr : JSVal → Option String
  | .undefined => none
  | .null => some "null"
  | .vbool b => some (if b then "true" else "false")
  | .vnum n => some (toString n)
  | .vstr s => some (quoteStr s)
  | .vobj fs => some ("\x7b" ++ String.intercalate "," (jsonFields fs) ++ "\x7d")

def jsonFields : List (String × JSVal) → List String
  | [] => []
  | kv :: rest =>
      match jsonStr kv.2 with
      | none => jsonFields rest
      | some s => (quoteStr kv.1 ++ ":" ++ s) :: jsonFields rest
end

/- Template-literal rendering: `JSON.stringify(x)` interpolates as the text
   undefined when stringify yields no string. -/
def jsonShow (v : JSVal) : String := (jsonStr v).getD "undefined"

def typeofStr : JSVal → String
  | .undefined => "undefined"
  | .null => "object"
  | .vbool _ => "boolean"
  | .vnum _ => "number"
  | .vstr _ => "string"
  | .vobj _ => "object"

/- The injection token of a provider: a string token or a class identity
   (either a schema class or some other identity named for diagnostics). -/
inductive Token : Type where
  | strTok : String → Token
  | classTok : SmartConfig → Token
  | identTok : String → Token

/- The JavaScript expression `t || fallback` on an optional string token:
   an absent token and the empty string are falsy. -/
def tokenOrIdent (t : Option String) (fb : Token) : Token :=
  match t with
  | some s => if s = "" then fb else .strTok s
  | none => fb

/- types.ts AsyncParams, after awaiting: imports and inject are opaque
   values passed through, useFactory yields the resolved value. -/
structure AsyncParams where
  imports : Option (List JSVal)
  inject : Option (List JSVal)
  useFactory : List JSVal → Except JSErr JSVal

/- The argument of a composition closure or of moduleFromSmartConfig: the
   two cases are the images of the isAsyncParams guard (an object with a
   callable useFactory property) and of its complement. -/
inductive ArgInput : Type where
  | sync : JSVal → ArgInput
  | async : AsyncParams → ArgInput

/- A provider of a synthetic module: either a useValue provider or a
   useFactory provider with its imports, inject and factory. -/
inductive Provider : Type where
  | useValueP : Token → JSVal → Provider
  | useFactoryP : Token → Option (List JSVal) → Option (List JSVal) →
      (List JSVal → Except JSErr JSVal) → Provider

def Provider.provideOf : Provider → Token
  | .useValueP t _ => t
  | .useFactoryP t _ _ _ => t

/- A DynamicModule as the library produces it: the identity (modelled by its
   generated name), and the optional imports, providers, exports,
   controllers and global fields. -/
inductive DynModule : Type where
  | mk : String → Option (List DynModule) → Option (List Provider) →
      Option (List Token) → Option (List JSVal) → Option Bool → DynModule

def DynModule.nameOf : DynModule → String
  | .mk n _ _ _ _ _ => n

def DynModule.importsOf : DynModule → Option (List DynModule)
  | .mk _ i _ _ _ _ => i

def DynModule.providersOf : DynModule → Option (List Provider)
  | .mk _ _ p _ _ _ => p

def DynModule.exportsOf : DynModule → Option (List Token)
  | .mk _ _ _ e _ _ => e

/- helpers.ts createNamedClass: allocates a class whose one observable
   attribute is the chosen name. -/
def createNamedClass (name : String) : String := name

/- Serialization of the root argument for the diagnostic messages:
   JSON.stringify drops function-valued properties, so an async-resolution
   descriptor serialises to its imports and inject fields only. -/
def jsonArrStr (vs : List JSVal) : String :=
  "[" ++ String.intercalate "," (vs.map (fun v => (jsonStr v).getD "null")) ++ "]"

def serializeArg : ArgInput → String
  | .sync v => jsonShow v
  | .async a =>
      let f1 := match a.imports with
        | some l => [quoteStr "imports" ++ ":" ++ jsonArrStr l]
        | none => []
      let f2 := match a.inject with
        | some l => [quoteStr "inject" ++ ":" ++ jsonArrStr l]
        | none => []
      "\x7b" ++ String.intercalate "," (f1 ++ f2) ++ "\x7d"

/- The message of the error thrown at the end of moduleFromSmartConfig. -/
def smartConfigErrMsg (v : JSVal) (arg : ArgInput) : String :=
  "SmartConfig: " ++ jsonShow v ++ " of [" ++ typeofStr v ++ "], " ++ serializeArg arg ++
    " is not valid smart config base for module"

/- The message of the error thrown at the end of moduleFromSmartImport. -/
def smartImportErrMsg (v : JSVal) (arg : ArgInput) : String :=
  "SmartImport: " ++ jsonShow v ++ " of [" ++ typeofStr v ++ "], " ++ serializeArg arg ++
    " is not valid smart import base for module"

/- modules.ts moduleFromSmartConfig: a plain schema registers and exports
   `token || schema`, an extended reference registers and exports
   `ref.token || ref.smartConfig`; the async branch copies imports and
   inject through and wraps useFactory with the instantiator, the sync
   branch precomputes the value; anything else throws. -/
def moduleFromSmartConfig (smartConfigBase : AnySmartConfig) (arg : ArgInput) : Except JSErr DynModule :=
  match smartConfigBase with
  | .cls c =>
      match arg with
      | .async a =>
          .ok (.mk (createNamedClass (c.name ++ "SmartConfigModule"))
                none
                (some [.useFactoryP (tokenOrIdent c.token (.classTok c)) a.imports a.inject
                  (fun args => do instantiateSmartConfig c (← a.useFactory args))])
                (some [tokenOrIdent c.token (.classTok c)])
                none none)
      | .sync v => do
          let value ← instantiateSmartConfig c v
          .ok (.mk (createNamedClass (c.name ++ "SmartConfigModule"))
                none
                (some [.useValueP (tokenOrIdent c.token (.classTok c)) value])
                (some [tokenOrIdent c.token (.classTok c)])
                none none)
  | .ext e =>
      match arg with
      | .async a =>
          .ok (.mk (createNamedClass (e.smartConfig.name ++ "SmartConfigModule"))
                none
                (some [.useFactoryP (tokenOrIdent e.token (.classTok e.smartConfig)) a.imports a.inject
                  (fun args => do instantiateExtendedSmartConfig e (← a.useFactory args))])
                (some [tokenOrIdent e.token (.classTok e.smartConfig)])
                none none)
      | .sync v => do
          let value ← instantiateExtendedSmartConfig e v
          .ok (.mk (createNamedClass (e.smartConfig.name ++ "SmartConfigModule"))
                none
                (some [.useValueP (tokenOrIdent e.token (.classTok e.smartConfig)) value])
                (some [tokenOrIdent e.token (.classTok e.smartConfig)])
                none none)
  | .other v => .error (.jsError (smartConfigErrMsg v arg))

/- types.ts ExtendedSmartImport: the wrapper around a nested-module
   closure; the closure itself is a function of the root argument. -/
structure ExtendedSmartImport where
  label : Option String
  pfx : Option String
  smartImport : ArgInput → Except JSErr DynModule

/- A value offered as a nested-module source: the images of isSmartImport,
   isExtendedSmartImport, and everything both reject. -/
inductive AnySmartImport : Type where
  | fn : (ArgInput → Except JSErr DynModule) → AnySmartImport
  | ext : ExtendedSmartImport → AnySmartImport
  | other : JSVal → AnySmartImport

/- modules.ts moduleFromSmartImport: a bare closure is applied to the raw
   argument; an extended wrapper namespaces the sync argument, or wraps the
   async useFactory so the resolved value is namespaced; anything else
   throws. -/
def moduleFromSmartImport (smartImportBase : AnySmartImport) (arg : ArgInput) : Except JSErr DynModule :=
  match smartImportBase with
  | .fn f => f arg
  | .ext e =>
      match arg with
      | .async a =>
          e.smartImport (.async ⟨a.imports, a.inject,
            fun args => do pickLabeledAndPrefixed (← a.useFactory args) e.label e.pfx⟩)
      | .sync v => do
          let picked ← pickLabeledAndPrefixed v e.label e.pfx
          e.smartImport (.sync picked)
  | .other v => .error (.jsError (smartImportErrMsg v arg))

/- types.ts SmartModule: the static module descriptor. Optional fields model
   presence of the property on the descriptor object. `modName` is the
   optional `module` property, `exps` the `exports` property and `glob` the
   `global` property (renamed to stay clear of Lean keywords). -/
structure ModuleDef where
  modName : Option String
  imports : Option (List DynModule)
  providers : Option (List Provider)
  exps : Option (List Token)
  controllers : Option (List JSVal)
  glob : Option Bool
  smartConfigs : Option (List AnySmartConfig)
  smartImports : Option (List AnySmartImport)

/- The last argument of smartModule: a static descriptor or a factory. The
   factory receives the inline synthetic modules and the instantiated
   inline configurations; a call of the source factory with the modules
   array as the only argument is a call with the empty instance list. -/
inductive SmartModuleOrFactory : Type where
  | statDef : ModuleDef → SmartModuleOrFactory
  | factory : (List DynModule → List JSVal → ModuleDef) → SmartModuleOrFactory

/- Array.prototype.map with left-to-right evaluation and exception
   propagation. -/
def mapE {α β : Type} (f : α → Except JSErr β) : List α → Except JSErr (List β)
  | [] => .ok []
  | a :: rest => do
    let b ← f a
    let bs ← mapE f rest
    .ok (b :: bs)

/- The value of `appendImports(\x7b module, ...d \x7d, synth)`: the spread
   keeps the declared fields of the descriptor (a `module` property of the
   descriptor overrides the freshly created identity because the spread
   comes second), and the imports of the result are the declared imports,
   if any, followed by the appended synthetic modules. -/
def assembleModule (nm : String) (d : ModuleDef) (synth : List DynModule) : DynModule :=
  .mk (d.modName.getD nm) (some ((d.imports.getD []) ++ synth)) d.providers d.exps d.controllers d.glob

/- helpers.ts appendImports applied to a spread copy of a static descriptor:
   when the descriptor declares an imports array (even an empty one, which
   is truthy), push mutates that very array through the shared reference,
   so the descriptor itself now holds the appended synthetic modules; when
   the descriptor has no imports property, only the fresh copy is assigned
   and the descriptor is untouched. -/
def appendImportsStat (nm : String) (d : ModuleDef) (synth : List DynModule) : DynModule × ModuleDef :=
  (assembleModule nm d synth,
   match d.imports with
   | none => d
   | some arr => ⟨d.modName, some (arr ++ synth), d.providers, d.exps, d.controllers, d.glob,
       d.smartConfigs, d.smartImports⟩)

/- smartModule.ts lines 64-69: the ternary choosing the instantiator for an
   inline configuration; on an invalid value the extended instantiator
   dereferences an undefined smartConfig property, a TypeError (that branch
   is unreachable from the orchestrator because moduleFromSmartConfig has
   already thrown on the same value). -/
def instantiateAnyInline (c : AnySmartConfig) (arg : JSVal) : Except JSErr JSVal :=
  match c with
  | .cls s => instantiateSmartConfig s arg
  | .ext e => instantiateExtendedSmartConfig e arg
  | .other _ => .error .typeError

/- The outcome of one invocation of the composition closure: the assembled
   module, the descriptor as it stands after the invocation (the push in
   appendImports can mutate a static descriptor), and the log of the calls
   of the user factory, each entry carrying the argument pair it received. -/
structure InvokeResult where
  dynModule : DynModule
  descr : SmartModuleOrFactory
  factoryCalls : List (List DynModule × List JSVal)

/- smartModule.ts lines 32-81: the body of the closure returned by
   smartModule, with the persistent state (the static descriptor) passed
   and returned explicitly. `thisName` is `this?.name || ''` at the call
   site. The factory paths call the user factory twice: once for
   smartConfigs and smartImports, once for the merged object. -/
def invokeSmartModule (inlineSmartConfigs : List AnySmartConfig)
    (smartModuleOrFactory : SmartModuleOrFactory) (thisName : String) (arg : ArgInput) :
    Except JSErr InvokeResult := do
  let nm := createNamedClass (thisName ++ "SmartModule")
  let inlineMods ← mapE (fun c => moduleFromSmartConfig c arg) inlineSmartConfigs
  match smartModuleOrFactory with
  | .statDef d =>
      let cfgMods ← mapE (fun c => moduleFromSmartConfig c arg) (d.smartConfigs.getD [])
      let impMods ← mapE (fun i => moduleFromSmartImport i arg) (d.smartImports.getD [])
      let pair := appendImportsStat nm d (inlineMods ++ cfgMods ++ impMods)
      .ok ⟨pair.1, .statDef pair.2, []⟩
  | .factory f =>
      match arg with
      | .async _ =>
          let d1 := f inlineMods []
          let cfgMods ← mapE (fun c => moduleFromSmartConfig c arg) (d1.smartConfigs.getD [])
          let impMods ← mapE (fun i => moduleFromSmartImport i arg) (d1.smartImports.getD [])
          let d2 := f inlineMods []
          .ok ⟨assembleModule nm d2 (inlineMods ++ cfgMods ++ impMods), .factory f,
            [(inlineMods, []), (inlineMods, [])]⟩
      | .sync v =>
          let insts ← mapE (fun c => instantiateAnyInline c v) inlineSmartConfigs
          let d1 := f inlineMods insts
          let cfgMods ← mapE (fun c => moduleFromSmartConfig c arg) (d1.smartConfigs.getD [])
          let impMods ← mapE (fun i => moduleFromSmartImport i arg) (d1.smartImports.getD [])
          let d2 := f inlineMods insts
          .ok ⟨assembleModule nm d2 (inlineMods ++ cfgMods ++ impMods), .factory f,
            [(inlineMods, insts), (inlineMods, insts)]⟩

/- smartModule.ts smartModule: splits its arguments into the inline
   configurations and the final descriptor-or-factory and returns the
   composition closure. -/
def smartModule (inlineSmartConfigs : List AnySmartConfig)
    (smartModuleOrFactory : SmartModuleOrFactory) (thisName : String) :
    ArgInput → Except JSErr InvokeResult :=
  invokeSmartModule inlineSmartConfigs smartModuleOrFactory thisName

/- Lookup lemmas for the object model. `firstSome` is the first-defined
   choice, `lastLookup` reads the last occurrence of a key, which is what a
   fold of property assignments leaves behind. -/

def firstSome (a b : Option JSVal) : Option JSVal :=
  match a with
  | some v => some v
  | none => b

def keysOf (fs : List (String × JSVal)) : List String := fs.map Prod.fst

def lastLookup (es : List (String × JSVal)) (k : String) : Option JSVal :=
  jsLookup es.reverse k

theorem firstSome_none (a : Option JSVal) : firstSome a none = a := by
  cases a <;> rfl

theorem jsLookup_append (a b : List (String × JSVal)) (k : String) :
    jsLookup (a ++ b) k = firstSome (jsLookup a k) (jsLookup b k) := by
  induction a with
  | nil => simp [jsLookup, firstSome]
  | cons kv rest ih =>
      by_cases h : kv.1 = k
      · simp [jsLookup, h, firstSome]
      · simp [jsLookup, h, ih]

theorem setKey_lookup (fs : List (String × JSVal)) (k : String) (v : JSVal) (q : String) :
    jsLookup (setKey fs k v) q = if k = q then some v else jsLookup fs q := by
  induction fs with
  | nil => simp [setKey, jsLookup]
  | cons kv rest ih =>
      by_cases hk : kv.1 = k
      · subst hk
        simp only [setKey, if_pos rfl]
        by_cases hq : kv.1 = q <;> simp [jsLookup, hq]
      · simp only [setKey, if_neg hk]
        by_cases h1 : kv.1 = q
        · have hq : ¬ k = q := fun h => hk (by rw [h, h1])
          simp [jsLookup, h1, hq]
        · simp [jsLookup, h1, ih]

theorem foldl_setKey_lookup (es : List (String × JSVal)) (acc : List (String × JSVal)) (k : String) :
    jsLookup (es.foldl (fun a kv => setKey a kv.1 kv.2) acc) k =
      firstSome (lastLookup es k) (jsLookup acc k) := by
  induction es generalizing acc with
  | nil => simp [lastLookup, jsLookup, firstSome]
  | cons kv rest ih =>
      rw [List.foldl_cons, ih, setKey_lookup]
      unfold lastLookup
      rw [List.reverse_cons, jsLookup_append]
      cases hr : jsLookup rest.reverse k with
      | some w => simp [firstSome, hr]
      | none =>
          by_cases h : kv.1 = k <;> simp [firstSome, hr, jsLookup, h]

theorem objFromEntries_lookup (es : List (String × JSVal)) (k : String) :
    jsLookup (objFromEntries es) k = lastLookup es k := by
  rw [objFromEntries, foldl_setKey_lookup]
  simp [jsLookup, firstSome_none]

theorem lastLookup_append (a b : List (String × JSVal)) (k : String) :
    lastLookup (a ++ b) k = firstSome (lastLookup b k) (lastLookup a k) := by
  unfold lastLookup
  rw [List.reverse_append, jsLookup_append]

theorem mem_keys_setKey (fs : List (String × JSVal)) (k : String) (v : JSVal) (q : String) :
    q ∈ keysOf (setKey fs k v) ↔ q = k ∨ q ∈ keysOf fs := by
  induction fs with
  | nil => simp [setKey, keysOf]
  | cons kv rest ih =>
      by_cases hk : kv.1 = k
      · subst hk
        have hset : setKey (kv :: rest) kv.1 v = (kv.1, v) :: rest := by
          simp [setKey]
        rw [hset]
        simp only [keysOf, List.map_cons, List.mem_cons]
        tauto
      · simp only [setKey, if_neg hk, keysOf, List.map_cons, List.mem_cons]
        rw [keysOf] at ih
        rw [ih]
        tauto

theorem nodup_setKey (fs : List (String × JSVal)) (k : String) (v : JSVal)
    (h : (keysOf fs).Nodup) : (keysOf (setKey fs k v)).Nodup := by
  induction fs with
  | nil => simp [setKey, keysOf]
  | cons kv rest ih =>
      rw [keysOf, List.map_cons, List.nodup_cons] at h
      by_cases hk : kv.1 = k
      · rw [keysOf]
        simp only [setKey, if_pos hk, List.map_cons, List.nodup_cons]
        exact ⟨hk ▸ h.1, h.2⟩
      · rw [keysOf]
        simp only [setKey, if_neg hk, List.map_cons, List.nodup_cons]
        refine ⟨?_, ?_⟩
        · intro hmem
          have hmem2 : kv.1 ∈ keysOf (setKey rest k v) := by
            rw [keysOf]; exact hmem
          rcases (mem_keys_setKey rest k v kv.1).mp hmem2 with h1 | h1
          · exact hk h1
          · exact h.1 (by rw [keysOf] at h1; exact h1)
        · have := ih h.2
          rw [keysOf] at this; exact this

theorem nodup_foldl_setKey (es : List (String × JSVal)) (acc : List (String × JSVal))
    (h : (keysOf acc).Nodup) :
    (keysOf (es.foldl (fun a kv => setKey a kv.1 kv.2) acc)).Nodup := by
  induction es generalizing acc with
  | nil => exact h
  | cons kv rest ih =>
      rw [List.foldl_cons]
      exact ih (setKey acc kv.1 kv.2) (nodup_setKey acc kv.1 kv.2 h)

theorem nodup_objFromEntries (es : List (String × JSVal)) :
    (keysOf (objFromEntries es)).Nodup := by
  rw [objFromEntries]
  exact nodup_foldl_setKey es [] (by simp [keysOf])

theorem jsLookup_eq_none (fs : List (String × JSVal)) (q : String)
    (h : q ∉ keysOf fs) : jsLookup fs q = none := by
  induction fs with
  | nil => rfl
  | cons kv rest ih =>
      rw [keysOf, List.map_cons, List.mem_cons] at h
      push_neg at h
      have hk : ¬ kv.1 = q := fun he => h.1 he.symm
      simp only [jsLookup, if_neg hk]
      exact ih (by rw [keysOf]; exact h.2)

theorem lastLookup_eq_jsLookup (fs : List (String × JSVal)) (q : String)
    (h : (keysOf fs).Nodup) : lastLookup fs q = jsLookup fs q := by
  induction fs with
  | nil => rfl
  | cons kv rest ih =>
      rw [keysOf, List.map_cons, List.nodup_cons] at h
      unfold lastLookup
      rw [List.reverse_cons, jsLookup_append]
      have hrest := ih (by rw [keysOf]; exact h.2)
      unfold lastLookup at hrest
      by_cases hk : kv.1 = q
      · have hnone : jsLookup rest q = none := by
          refine jsLookup_eq_none rest q ?_
          rw [keysOf]
          exact fun hm => h.1 (hk ▸ hm)
        rw [hrest, hnone]
        simp [jsLookup, firstSome, hk]
      · rw [hrest]
        cases hc : jsLookup rest q <;> simp [jsLookup, firstSome, hk, hc]

theorem jsLookup_filter (fs : List (String × JSVal)) (pred : String × JSVal → Bool) (q : String)
    (h : (keysOf fs).Nodup) :
    jsLookup (fs.filter pred) q =
      match jsLookup fs q with
      | some v => if pred (q, v) then some v else none
      | none => none := by
  induction fs with
  | nil => rfl
  | cons kv rest ih =>
      rw [keysOf, List.map_cons, List.nodup_cons] at h
      have ihr := ih h.2
      by_cases hk : kv.1 = q
      · have hkv : (q, kv.2) = kv := by
          cases kv
          simp at hk
          rw [hk]
        have hnone : jsLookup (rest.filter pred) q = none := by
          refine jsLookup_eq_none _ q ?_
          intro hm
          rw [keysOf, List.mem_map] at hm
          rcases hm with ⟨p, hp, hpe⟩
          refine h.1 ?_
          rw [List.mem_map]
          exact ⟨p, List.mem_of_mem_filter hp, hpe.trans hk.symm⟩
        cases hp : pred kv with
        | true =>
            rw [List.filter_cons_of_pos hp]
            simp [jsLookup, hk, hkv, hp]
        | false =>
            rw [List.filter_cons_of_neg (by simp [hp])]
            rw [hnone]
            simp [jsLookup, hk, hkv, hp]
      · cases hp : pred kv with
        | true =>
            rw [List.filter_cons_of_pos hp]
            simp only [jsLookup, if_neg hk]
            exact ihr
        | false =>
            rw [List.filter_cons_of_neg (by simp [hp])]
            rw [ihr]
            simp [jsLookup, hk]

theorem nodup_keys_filter (fs : List (String × JSVal)) (pred : String × JSVal → Bool)
    (h : (keysOf fs).Nodup) : (keysOf (fs.filter pred)).Nodup := by
  refine List.Nodup.sublist ?_ h
  exact List.Sublist.map Prod.fst (List.filter_sublist fs)

/- The lookup behaviour of `\x7b ...a, ...Object.fromEntries(b) \x7d`: the
   last occurrence in b wins, then a is consulted. -/
theorem objFromEntries_append_lookup (a b : List (String × JSVal)) (q : String)
    (hA : (keysOf a).Nodup) (hB : (keysOf b).Nodup) :
    jsLookup (objFromEntries (a ++ objFromEntries b)) q = firstSome (jsLookup b q) (jsLookup a q) := by
  rw [objFromEntries_lookup, lastLookup_append,
    lastLookup_eq_jsLookup _ _ (nodup_objFromEntries b),
    objFromEntries_lookup, lastLookup_eq_jsLookup _ _ hB, lastLookup_eq_jsLookup _ _ hA]

/- Inversion of one invocation of the composition closure, per descriptor
   shape. Each lemma names the value of every intermediate computation and
   the exact shape of the result. -/

theorem invoke_statDef_eq (inline : List AnySmartConfig) (d : ModuleDef) (nm : String)
    (arg : ArgInput) :
    invokeSmartModule inline (.statDef d) nm arg =
      Except.bind (mapE (fun c => moduleFromSmartConfig c arg) inline) (fun ims =>
        Except.bind (mapE (fun c => moduleFromSmartConfig c arg) (d.smartConfigs.getD [])) (fun cfgs =>
          Except.bind (mapE (fun i => moduleFromSmartImport i arg) (d.smartImports.getD [])) (fun imps =>
            .ok ⟨assembleModule (createNamedClass (nm ++ "SmartModule")) d (ims ++ cfgs ++ imps),
              .statDef (appendImportsStat (createNamedClass (nm ++ "SmartModule")) d
                (ims ++ cfgs ++ imps)).2, []⟩))) := rfl

theorem invoke_factory_sync_eq (inline : List AnySmartConfig)
    (f : List DynModule → List JSVal → ModuleDef) (nm : String) (v : JSVal) :
    invokeSmartModule inline (.factory f) nm (.sync v) =
      Except.bind (mapE (fun c => moduleFromSmartConfig c (.sync v)) inline) (fun ims =>
        Except.bind (mapE (fun c => instantiateAnyInline c v) inline) (fun insts =>
          Except.bind (mapE (fun c => moduleFromSmartConfig c (.sync v))
              ((f ims insts).smartConfigs.getD [])) (fun cfgs =>
            Except.bind (mapE (fun i => moduleFromSmartImport i (.sync v))
                ((f ims insts).smartImports.getD [])) (fun imps =>
              .ok ⟨assembleModule (createNamedClass (nm ++ "SmartModule")) (f ims insts)
                  (ims ++ cfgs ++ imps), .factory f, [(ims, insts), (ims, insts)]⟩)))) := rfl

theorem invoke_factory_async_eq (inline : List AnySmartConfig)
    (f : List DynModule → List JSVal → ModuleDef) (nm : String) (a : AsyncParams) :
    invokeSmartModule inline (.factory f) nm (.async a) =
      Except.bind (mapE (fun c => moduleFromSmartConfig c (.async a)) inline) (fun ims =>
        Except.bind (mapE (fun c => moduleFromSmartConfig c (.async a))
            ((f ims []).smartConfigs.getD [])) (fun cfgs =>
          Except.bind (mapE (fun i => moduleFromSmartImport i (.async a))
              ((f ims []).smartImports.getD [])) (fun imps =>
            .ok ⟨assembleModule (createNamedClass (nm ++ "SmartModule")) (f ims [])
                (ims ++ cfgs ++ imps), .factory f, [(ims, []), (ims, [])]⟩))) := rfl

theorem invoke_statDef_inv (inline : List AnySmartConfig) (d : ModuleDef) (nm : String)
    (arg : ArgInput) (r : InvokeResult)
    (h : invokeSmartModule inline (.statDef d) nm arg = .ok r) :
    ∃ ims cfgs imps,
      mapE (fun c => moduleFromSmartConfig c arg) inline = .ok ims ∧
      mapE (fun c => moduleFromSmartConfig c arg) (d.smartConfigs.getD []) = .ok cfgs ∧
      mapE (fun i => moduleFromSmartImport i arg) (d.smartImports.getD []) = .ok imps ∧
      r = ⟨assembleModule (createNamedClass (nm ++ "SmartModule")) d (ims ++ cfgs ++ imps),
        .statDef (appendImportsStat (createNamedClass (nm ++ "SmartModule")) d
          (ims ++ cfgs ++ imps)).2, []⟩ := by
  rw [invoke_statDef_eq] at h
  cases h1 : mapE (fun c => moduleFromSmartConfig c arg) inline with
  | error e => rw [h1] at h; simp only [Except.bind] at h; exact Except.noConfusion h
  | ok ims =>
      rw [h1] at h
      simp only [Except.bind] at h
      cases h2 : mapE (fun c => moduleFromSmartConfig c arg) (d.smartConfigs.getD []) with
      | error e => rw [h2] at h; simp only [Except.bind] at h; exact Except.noConfusion h
      | ok cfgs =>
          rw [h2] at h
          simp only [Except.bind] at h
          cases h3 : mapE (fun i => moduleFromSmartImport i arg) (d.smartImports.getD []) with
          | error e => rw [h3] at h; simp only [Except.bind] at h; exact Except.noConfusion h
          | ok imps =>
              rw [h3] at h
              simp only [Except.bind] at h
              exact ⟨ims, cfgs, imps, rfl, rfl, rfl, (Except.ok.inj h).symm⟩

theorem invoke_factory_sync_inv (inline : List AnySmartConfig)
    (f : List DynModule → List JSVal → ModuleDef) (nm : String) (v : JSVal) (r : InvokeResult)
    (h : invokeSmartModule inline (.factory f) nm (.sync v) = .ok r) :
    ∃ ims insts cfgs imps,
      mapE (fun c => moduleFromSmartConfig c (.sync v)) inline = .ok ims ∧
      mapE (fun c => instantiateAnyInline c v) inline = .ok insts ∧
      mapE (fun c => moduleFromSmartConfig c (.sync v)) ((f ims insts).smartConfigs.getD []) = .ok cfgs ∧
      mapE (fun i => moduleFromSmartImport i (.sync v)) ((f ims insts).smartImports.getD []) = .ok imps ∧
      r = ⟨assembleModule (createNamedClass (nm ++ "SmartModule")) (f ims insts)
          (ims ++ cfgs ++ imps), .factory f, [(ims, insts), (ims, insts)]⟩ := by
  rw [invoke_factory_sync_eq] at h
  cases h1 : mapE (fun c => moduleFromSmartConfig c (.sync v)) inline with
  | error e => rw [h1] at h; simp only [Except.bind] at h; exact Except.noConfusion h
  | ok ims =>
      rw [h1] at h
      simp only [Except.bind] at h
      cases h2 : mapE (fun c => instantiateAnyInline c v) inline with
      | error e => rw [h2] at h; simp only [Except.bind] at h; exact Except.noConfusion h
      | ok insts =>
          rw [h2] at h
          simp only [Except.bind] at h
          cases h3 : mapE (fun c => moduleFromSmartConfig c (.sync v))
              ((f ims insts).smartConfigs.getD []) with
          | error e => rw [h3] at h; simp only [Except.bind] at h; exact Except.noConfusion h
          | ok cfgs =>
              rw [h3] at h
              simp only [Except.bind] at h
              cases h4 : mapE (fun i => moduleFromSmartImport i (.sync v))
                  ((f ims insts).smartImports.getD []) with
              | error e => rw [h4] at h; simp only [Except.bind] at h; exact Except.noConfusion h
              | ok imps =>
                  rw [h4] at h
                  simp only [Except.bind] at h
                  exact ⟨ims, insts, cfgs, imps, rfl, rfl, h3, h4, (Except.ok.inj h).symm⟩

theorem invoke_factory_async_inv (inline : List AnySmartConfig)
    (f : List DynModule → List JSVal → ModuleDef) (nm : String) (a : AsyncParams) (r : InvokeResult)
    (h : invokeSmartModule inline (.factory f) nm (.async a) = .ok r) :
    ∃ ims cfgs imps,
      mapE (fun c => moduleFromSmartConfig c (.async a)) inline = .ok ims ∧
      mapE (fun c => moduleFromSmartConfig c (.async a)) ((f ims []).smartConfigs.getD []) = .ok cfgs ∧
      mapE (fun i => moduleFromSmartImport i (.async a)) ((f ims []).smartImports.getD []) = .ok imps ∧
      r = ⟨assembleModule (createNamedClass (nm ++ "SmartModule")) (f ims [])
          (ims ++ cfgs ++ imps), .factory f, [(ims, []), (ims, [])]⟩ := by
  rw [invoke_factory_async_eq] at h
  cases h1 : mapE (fun c => moduleFromSmartConfig c (.async a)) inline with
  | error e => rw [h1] at h; simp only [Except.bind] at h; exact Except.noConfusion h
  | ok ims =>
      rw [h1] at h
      simp only [Except.bind] at h
      cases h2 : mapE (fun c => moduleFromSmartConfig c (.async a))
          ((f ims []).smartConfigs.getD []) with
      | error e => rw [h2] at h; simp only [Except.bind] at h; exact Except.noConfusion h
      | ok cfgs =>
          rw [h2] at h
          simp only [Except.bind] at h
          cases h3 : mapE (fun i => moduleFromSmartImport i (.async a))
              ((f ims []).smartImports.getD []) with
          | error e => rw [h3] at h; simp only [Except.bind] at h; exact Except.noConfusion h
          | ok imps =>
              rw [h3] at h
              simp only [Except.bind] at h
              exact ⟨ims, cfgs, imps, rfl, h2, h3, (Except.ok.inj h).symm⟩

theorem bind_ok_eq {α β : Type} (a : α) (k : α → Except JSErr β) :
    (Bind.bind (Except.ok a) k : Except JSErr β) = k a := rfl

theorem bind_error_eq {α β : Type} (err : JSErr) (k : α → Except JSErr β) :
    (Bind.bind (Except.error err) k : Except JSErr β) = Except.error err := rfl

/-- C8: pickLabeledAndPrefixed applies the label lookup first, then the prefix
filter, then the prefix strip; with neither label nor prefix set it returns
the input itself unchanged (the definition hands back the argument, building
no copy); consequently extracting with the label alone and then with the
prefix alone equals extracting with both at once. -/
theorem claim_C8_extract_composes :
    (∀ input : JSVal, pickLabeledAndPrefixed input none none = .ok input) ∧
    (∀ (input : JSVal) (label p : Option String),
      Except.bind (pickLabeledAndPrefixed input label none)
          (fun x => pickLabeledAndPrefixed x none p) =
        pickLabeledAndPrefixed input label p) := by
  constructor
  · intro input
    rfl
  · intro input label p
    have e1 : pickLabeledAndPrefixed input label none = pickLabel input label := by
      unfold pickLabeledAndPrefixed
      cases h : pickLabel input label <;> rfl
    rw [e1]
    unfold pickLabeledAndPrefixed
    cases h : pickLabel input label <;> rfl

/-- C3 counterexample: extraction from an undefined or a null input with a
requested label does fail — it throws a TypeError — rather than yielding
undefined as the claim states. -/
theorem claim_C3_cex :
    pickLabeledAndPrefixed JSVal.undefined (some "a") none = .error .typeError ∧
    pickLabeledAndPrefixed JSVal.null (some "a") none = .error .typeError := ⟨rfl, rfl⟩

/-- C3 (amended): for a non-empty label, extraction from an undefined or null
input throws a TypeError at the label-indexing step, whatever the prefix; an
object input that merely lacks the label key yields undefined without
failing when no prefix is set. -/
theorem claim_C3_amended (l : String) (p : Option String) (fs : List (String × JSVal))
    (hl : l ≠ "") (hfs : jsLookup fs l = none) :
    pickLabeledAndPrefixed JSVal.undefined (some l) p = .error .typeError ∧
    pickLabeledAndPrefixed JSVal.null (some l) p = .error .typeError ∧
    pickLabeledAndPrefixed (JSVal.vobj fs) (some l) none = .ok .undefined := by
  have hu : pickLabel JSVal.undefined (some l) = .error .typeError := by
    simp only [pickLabel, if_neg hl]
    rfl
  have hn : pickLabel JSVal.null (some l) = .error .typeError := by
    simp only [pickLabel, if_neg hl]
    rfl
  have ho : pickLabel (JSVal.vobj fs) (some l) = .ok .undefined := by
    simp only [pickLabel, if_neg hl, jsIndex, hfs]
    rfl
  refine ⟨?_, ?_, ?_⟩
  · unfold pickLabeledAndPrefixed
    rw [hu, bind_error_eq]
  · unfold pickLabeledAndPrefixed
    rw [hn, bind_error_eq]
  · unfold pickLabeledAndPrefixed
    rw [ho, bind_ok_eq]
    rfl

theorem claim_C3_amended_witness :
    (("a" : String) ≠ "") ∧ jsLookup [("b", JSVal.vnum 1)] "a" = none ∧
    (pickLabeledAndPrefixed JSVal.undefined (some "a") none = .error .typeError ∧
     pickLabeledAndPrefixed JSVal.null (some "a") none = .error .typeError ∧
     pickLabeledAndPrefixed (JSVal.vobj [("b", JSVal.vnum 1)]) (some "a") none = .ok .undefined) :=
  ⟨by decide, rfl, claim_C3_amended "a" none [("b", JSVal.vnum 1)] (by decide) rfl⟩

/- Concrete schema and extended reference for the token-defaulting claim: the
   wrapped schema carries a static token, the reference carries none. -/
def c1Schema : SmartConfig :=
  ⟨"Config", none, none, some "STATIC_TOKEN", [("value", JSVal.vstr "default")]⟩

def c1ExtRef : ExtendedSmartConfig := ⟨none, none, none, c1Schema⟩

/-- C1 counterexample: an extended reference without a token override around a
schema whose static token is STATIC_TOKEN registers and exports the schema
identity, not the schema static token, so the claimed four-step defaulting
chain fails at its third link. -/
theorem claim_C1_cex :
    (moduleFromSmartConfig (.ext c1ExtRef) (.sync (.vobj []))).map DynModule.exportsOf =
      .ok (some [Token.classTok c1Schema]) ∧
    (moduleFromSmartConfig (.ext c1ExtRef) (.sync (.vobj []))).map DynModule.exportsOf ≠
      .ok (some [Token.strTok "STATIC_TOKEN"]) := by
  refine ⟨rfl, ?_⟩
  intro h
  have h1 : (Except.ok (some [Token.classTok c1Schema]) : Except JSErr (Option (List Token))) =
      .ok (some [Token.strTok "STATIC_TOKEN"]) :=
    (rfl : (moduleFromSmartConfig (.ext c1ExtRef) (.sync (.vobj []))).map DynModule.exportsOf =
      .ok (some [Token.classTok c1Schema])).symm.trans h
  have h2 := Option.some.inj (Except.ok.inj h1)
  injection h2 with h3 _
  exact Token.noConfusion h3

/-- C1 (amended): the registered provider token and the exported token are:
for an extended reference, its own token when truthy, else the schema
identity itself (the wrapped schema static token is never consulted); for a
plain schema, its static token when truthy, else the schema identity — for
both sync and async root arguments. -/
theorem claim_C1_amended (s : SmartConfig) (e : ExtendedSmartConfig) (arg : ArgInput)
    (m1 m2 : DynModule)
    (h1 : moduleFromSmartConfig (.cls s) arg = .ok m1)
    (h2 : moduleFromSmartConfig (.ext e) arg = .ok m2) :
    m1.exportsOf = some [tokenOrIdent s.token (.classTok s)] ∧
    (m1.providersOf.getD []).map Provider.provideOf = [tokenOrIdent s.token (.classTok s)] ∧
    m2.exportsOf = some [tokenOrIdent e.token (.classTok e.smartConfig)] ∧
    (m2.providersOf.getD []).map Provider.provideOf =
      [tokenOrIdent e.token (.classTok e.smartConfig)] := by
  cases arg with
  | async a =>
      simp only [moduleFromSmartConfig] at h1 h2
      have e1 := (Except.ok.inj h1).symm
      have e2 := (Except.ok.inj h2).symm
      subst e1
      subst e2
      exact ⟨rfl, rfl, rfl, rfl⟩
  | sync v =>
      simp only [moduleFromSmartConfig] at h1 h2
      cases hv : instantiateSmartConfig s v with
      | error err => rw [hv, bind_error_eq] at h1; exact Except.noConfusion h1
      | ok val =>
          rw [hv, bind_ok_eq] at h1
          cases hw : instantiateExtendedSmartConfig e v with
          | error err => rw [hw, bind_error_eq] at h2; exact Except.noConfusion h2
          | ok val2 =>
              rw [hw, bind_ok_eq] at h2
              have e1 := (Except.ok.inj h1).symm
              have e2 := (Except.ok.inj h2).symm
              subst e1
              subst e2
              exact ⟨rfl, rfl, rfl, rfl⟩

def c1FallbackModule : DynModule := .mk "" none none none none none

def c1SyncClsModule : DynModule :=
  (moduleFromSmartConfig (.cls c1Schema) (.sync (.vobj []))).toOption.getD c1FallbackModule

def c1SyncExtModule : DynModule :=
  (moduleFromSmartConfig (.ext c1ExtRef) (.sync (.vobj []))).toOption.getD c1FallbackModule

theorem claim_C1_amended_witness :
    (moduleFromSmartConfig (.cls c1Schema) (.sync (.vobj [])) = .ok c1SyncClsModule) ∧
    (moduleFromSmartConfig (.ext c1ExtRef) (.sync (.vobj [])) = .ok c1SyncExtModule) ∧
    (c1SyncClsModule.exportsOf = some [tokenOrIdent c1Schema.token (.classTok c1Schema)] ∧
     (c1SyncClsModule.providersOf.getD []).map Provider.provideOf =
       [tokenOrIdent c1Schema.token (.classTok c1Schema)] ∧
     c1SyncExtModule.exportsOf = some [tokenOrIdent c1ExtRef.token (.classTok c1ExtRef.smartConfig)] ∧
     (c1SyncExtModule.providersOf.getD []).map Provider.provideOf =
       [tokenOrIdent c1ExtRef.token (.classTok c1ExtRef.smartConfig)]) :=
  ⟨rfl, rfl, claim_C1_amended c1Schema c1ExtRef (.sync (.vobj [])) c1SyncClsModule c1SyncExtModule rfl rfl⟩

/-- C6: for a schema and an asynchronous descriptor whose factory resolves to
V, the synthetic module carries the schema-named identity, a single
useFactory provider registered under the identity token with the descriptor
imports and inject copied through unchanged, exports that same token, and
the wrapped factory, once invoked and awaited, yields exactly
instantiate(S, V). -/
theorem claim_C6_async_transparency (s : SmartConfig) (imps inj : Option (List JSVal)) (V : JSVal) :
    ∃ fac,
      moduleFromSmartConfig (.cls s) (.async ⟨imps, inj, fun _ => .ok V⟩) =
        .ok (.mk (s.name ++ "SmartConfigModule") none
          (some [.useFactoryP (tokenOrIdent s.token (.classTok s)) imps inj fac])
          (some [tokenOrIdent s.token (.classTok s)]) none none) ∧
      ∀ args, fac args = instantiateSmartConfig s V := by
  exact ⟨_, rfl, fun args => rfl⟩

/- Every error the namespacing and instantiation pipeline can raise is a
   TypeError: the thrown `new Error` diagnostics only occur at the tail of
   moduleFromSmartConfig and moduleFromSmartImport. -/

theorem jsEntries_err (obj : JSVal) (er : JSErr) (h : jsEntries obj = .error er) :
    er = .typeError := by
  cases obj <;> first
    | (injection h with h2; exact h2.symm)
    | exact Except.noConfusion h

theorem jsIndex_err (obj : JSVal) (k : String) (er : JSErr) (h : jsIndex obj k = .error er) :
    er = .typeError := by
  cases obj with
  | undefined => injection h with h2; exact h2.symm
  | null => injection h with h2; exact h2.symm
  | vbool b => exact Except.noConfusion h
  | vnum n => exact Except.noConfusion h
  | vobj fs => exact Except.noConfusion h
  | vstr s =>
      simp only [jsIndex] at h
      split at h <;> exact Except.noConfusion h

theorem pickLabel_err (obj : JSVal) (l : Option String) (er : JSErr)
    (h : pickLabel obj l = .error er) : er = .typeError := by
  cases l with
  | none => exact Except.noConfusion h
  | some s =>
      simp only [pickLabel] at h
      split at h
      · exact Except.noConfusion h
      · exact jsIndex_err obj s er h

theorem filterByPrefix_err (obj : JSVal) (p : Option String) (er : JSErr)
    (h : filterByPrefix obj p = .error er) : er = .typeError := by
  cases p with
  | none => exact Except.noConfusion h
  | some s =>
      simp only [filterByPrefix] at h
      split at h
      · exact Except.noConfusion h
      · cases he : jsEntries obj with
        | error e2 =>
            rw [he, bind_error_eq] at h
            injection h with h2
            rw [← h2]
            exact jsEntries_err obj e2 he
        | ok es =>
            rw [he, bind_ok_eq] at h
            exact Except.noConfusion h

theorem removePrefix_err (obj : JSVal) (p : Option String) (er : JSErr)
    (h : removePrefix obj p = .error er) : er = .typeError := by
  cases p with
  | none => exact Except.noConfusion h
  | some s =>
      simp only [removePrefix] at h
      split at h
      · exact Except.noConfusion h
      · cases he : jsEntries obj with
        | error e2 =>
            rw [he, bind_error_eq] at h
            injection h with h2
            rw [← h2]
            exact jsEntries_err obj e2 he
        | ok es =>
            rw [he, bind_ok_eq] at h
            exact Except.noConfusion h

theorem pickLabeledAndPrefixed_err (obj : JSVal) (l p : Option String) (er : JSErr)
    (h : pickLabeledAndPrefixed obj l p = .error er) : er = .typeError := by
  unfold pickLabeledAndPrefixed at h
  cases h1 : pickLabel obj l with
  | error e1 =>
      rw [h1, bind_error_eq] at h
      injection h with h2
      rw [← h2]
      exact pickLabel_err obj l e1 h1
  | ok x =>
      rw [h1, bind_ok_eq] at h
      cases h2 : filterByPrefix x p with
      | error e2 =>
          rw [h2, bind_error_eq] at h
          injection h with h3
          rw [← h3]
          exact filterByPrefix_err x p e2 h2
      | ok y =>
          rw [h2, bind_ok_eq] at h
          exact removePrefix_err y p er h

theorem applyPropsToSmartConfig_err (s : SmartConfig) (obj : JSVal) (er : JSErr)
    (h : applyPropsToSmartConfig s obj = .error er) : er = .typeError := by
  unfold applyPropsToSmartConfig at h
  cases he : jsEntries obj with
  | error e2 =>
      rw [he, bind_error_eq] at h
      injection h with h2
      rw [← h2]
      exact jsEntries_err obj e2 he
  | ok es =>
      rw [he, bind_ok_eq] at h
      exact Except.noConfusion h

theorem instantiateSmartConfig_err (s : SmartConfig) (w : JSVal) (er : JSErr)
    (h : instantiateSmartConfig s w = .error er) : er = .typeError := by
  unfold instantiateSmartConfig at h
  cases h1 : pickLabeledAndPrefixed w s.label s.pfx with
  | error e1 =>
      rw [h1, bind_error_eq] at h
      injection h with h2
      rw [← h2]
      exact pickLabeledAndPrefixed_err w s.label s.pfx e1 h1
  | ok x =>
      rw [h1, bind_ok_eq] at h
      exact applyPropsToSmartConfig_err s x er h

theorem instantiateExtendedSmartConfig_err (e : ExtendedSmartConfig) (w : JSVal) (er : JSErr)
    (h : instantiateExtendedSmartConfig e w = .error er) : er = .typeError := by
  have h2 : Bind.bind
      (pickLabeledAndPrefixed w
        (match e.label with
          | some l => some l
          | none => e.smartConfig.label)
        (match e.pfx with
          | some p => some p
          | none => e.smartConfig.pfx))
      (fun picked => applyPropsToSmartConfig e.smartConfig picked) = Except.error er := h
  cases h1 : pickLabeledAndPrefixed w
      (match e.label with
        | some l => some l
        | none => e.smartConfig.label)
      (match e.pfx with
        | some p => some p
        | none => e.smartConfig.pfx) with
  | error e1 =>
      rw [h1, bind_error_eq] at h2
      injection h2 with h3
      rw [← h3]
      exact pickLabeledAndPrefixed_err _ _ _ e1 h1
  | ok x =>
      rw [h1, bind_ok_eq] at h2
      exact applyPropsToSmartConfig_err e.smartConfig x er h2

def c7EmptyDef : ModuleDef := ⟨none, none, none, none, none, none, none, none⟩

/-- C7: a value that is neither a schema class nor a valid extended reference
makes moduleFromSmartConfig throw the invalid-config-source error, whose
message embeds the JSON serialization of the offending value and of the
processed input; the composition closure raises the same error synchronously
at invocation time; and values recognised as valid config sources never
produce this thrown error. -/
theorem claim_C7_invalid_config (v : JSVal) (arg : ArgInput) (nm : String)
    (s : SmartConfig) (e : ExtendedSmartConfig) :
    moduleFromSmartConfig (.other v) arg = .error (.jsError (smartConfigErrMsg v arg)) ∧
    (∃ pre mid post,
      smartConfigErrMsg v arg = pre ++ jsonShow v ++ mid ++ serializeArg arg ++ post) ∧
    invokeSmartModule [.other v] (.statDef c7EmptyDef) nm arg =
      .error (.jsError (smartConfigErrMsg v arg)) ∧
    (∀ msg, moduleFromSmartConfig (.cls s) arg ≠ .error (.jsError msg)) ∧
    (∀ msg, moduleFromSmartConfig (.ext e) arg ≠ .error (.jsError msg)) := by
  refine ⟨rfl, ?_, rfl, ?_, ?_⟩
  · refine ⟨"SmartConfig: ", " of [" ++ typeofStr v ++ "], ",
      " is not valid smart config base for module", ?_⟩
    simp [smartConfigErrMsg, String.append_assoc]
  · intro msg hmsg
    cases arg with
    | async a =>
        simp only [moduleFromSmartConfig] at hmsg
        exact Except.noConfusion hmsg
    | sync w =>
        simp only [moduleFromSmartConfig] at hmsg
        cases hv : instantiateSmartConfig s w with
        | error er =>
            rw [hv, bind_error_eq] at hmsg
            injection hmsg with h2
            rw [instantiateSmartConfig_err s w er hv] at h2
            exact JSErr.noConfusion h2
        | ok val =>
            rw [hv, bind_ok_eq] at hmsg
            exact Except.noConfusion hmsg
  · intro msg hmsg
    cases arg with
    | async a =>
        simp only [moduleFromSmartConfig] at hmsg
        exact Except.noConfusion hmsg
    | sync w =>
        simp only [moduleFromSmartConfig] at hmsg
        cases hv : instantiateExtendedSmartConfig e w with
        | error er =>
            rw [hv, bind_error_eq] at hmsg
            injection hmsg with h2
            rw [instantiateExtendedSmartConfig_err e w er hv] at h2
            exact JSErr.noConfusion h2
        | ok val =>
            rw [hv, bind_ok_eq] at hmsg
            exact Except.noConfusion hmsg

/-- C5: the assembled module imports are exactly the declared imports of the
effective descriptor followed by the inline synthetic modules, then the
schema synthetic modules, then the nested-module synthetic modules, in that
concatenation order — for a static descriptor under any root argument and
for a factory descriptor under a sync root argument. -/
theorem claim_C5_import_order
    (inline : List AnySmartConfig) (d : ModuleDef)
    (f : List DynModule → List JSVal → ModuleDef) (nm : String) (v : JSVal) (a : AsyncParams)
    (arg : ArgInput) (rS rF rA : InvokeResult)
    (hS : invokeSmartModule inline (.statDef d) nm arg = .ok rS)
    (hF : invokeSmartModule inline (.factory f) nm (.sync v) = .ok rF)
    (hA : invokeSmartModule inline (.factory f) nm (.async a) = .ok rA) :
    (∃ ims cfgs imps,
      mapE (fun c => moduleFromSmartConfig c arg) inline = .ok ims ∧
      mapE (fun c => moduleFromSmartConfig c arg) (d.smartConfigs.getD []) = .ok cfgs ∧
      mapE (fun i => moduleFromSmartImport i arg) (d.smartImports.getD []) = .ok imps ∧
      rS.dynModule.importsOf = some (d.imports.getD [] ++ (ims ++ cfgs ++ imps))) ∧
    (∃ ims insts cfgs imps,
      mapE (fun c => moduleFromSmartConfig c (.sync v)) inline = .ok ims ∧
      mapE (fun c => instantiateAnyInline c v) inline = .ok insts ∧
      mapE (fun c => moduleFromSmartConfig c (.sync v)) ((f ims insts).smartConfigs.getD []) = .ok cfgs ∧
      mapE (fun i => moduleFromSmartImport i (.sync v)) ((f ims insts).smartImports.getD []) = .ok imps ∧
      rF.dynModule.importsOf = some ((f ims insts).imports.getD [] ++ (ims ++ cfgs ++ imps))) ∧
    (∃ ims cfgs imps,
      mapE (fun c => moduleFromSmartConfig c (.async a)) inline = .ok ims ∧
      mapE (fun c => moduleFromSmartConfig c (.async a)) ((f ims []).smartConfigs.getD []) = .ok cfgs ∧
      mapE (fun i => moduleFromSmartImport i (.async a)) ((f ims []).smartImports.getD []) = .ok imps ∧
      rA.dynModule.importsOf = some ((f ims []).imports.getD [] ++ (ims ++ cfgs ++ imps))) := by
  refine ⟨?_, ?_, ?_⟩
  · obtain ⟨ims, cfgs, imps, h1, h2, h3, hr⟩ := invoke_statDef_inv inline d nm arg rS hS
    exact ⟨ims, cfgs, imps, h1, h2, h3, by rw [hr]; rfl⟩
  · obtain ⟨ims, insts, cfgs, imps, h1, h2, h3, h4, hr⟩ :=
      invoke_factory_sync_inv inline f nm v rF hF
    exact ⟨ims, insts, cfgs, imps, h1, h2, h3, h4, by rw [hr]; rfl⟩
  · obtain ⟨ims, cfgs, imps, h1, h2, h3, hr⟩ := invoke_factory_async_inv inline f nm a rA hA
    exact ⟨ims, cfgs, imps, h1, h2, h3, by rw [hr]; rfl⟩

def c5Schema : SmartConfig := ⟨"Config", none, none, none, [("value", JSVal.vstr "d")]⟩

def c5Def : ModuleDef :=
  ⟨none, some [DynModule.mk "ExternalModule" none none none none none], none, none, none, none,
    some [.cls c5Schema], none⟩

def c5Fact : List DynModule → List JSVal → ModuleDef := fun _ _ =>
  ⟨none, none, none, none, none, none, some [.cls c5Schema], none⟩

def c5Fallback : InvokeResult := ⟨.mk "" none none none none none, .statDef c5Def, []⟩

def c5RunS : InvokeResult :=
  (invokeSmartModule [] (.statDef c5Def) "" (.sync (.vobj []))).toOption.getD c5Fallback

def c5RunF : InvokeResult :=
  (invokeSmartModule [] (.factory c5Fact) "" (.sync (.vobj []))).toOption.getD c5Fallback

def c5Async : AsyncParams := ⟨none, none, fun _ => .ok (.vobj [])⟩

def c5RunA : InvokeResult :=
  (invokeSmartModule [] (.factory c5Fact) "" (.async c5Async)).toOption.getD c5Fallback

theorem claim_C5_import_order_witness :
    (invokeSmartModule [] (.statDef c5Def) "" (.sync (.vobj [])) = .ok c5RunS) ∧
    (invokeSmartModule [] (.factory c5Fact) "" (.sync (.vobj [])) = .ok c5RunF) ∧
    (invokeSmartModule [] (.factory c5Fact) "" (.async c5Async) = .ok c5RunA) ∧
    ((∃ ims cfgs imps,
      mapE (fun c => moduleFromSmartConfig c (.sync (.vobj []))) ([] : List AnySmartConfig) = .ok ims ∧
      mapE (fun c => moduleFromSmartConfig c (.sync (.vobj []))) (c5Def.smartConfigs.getD []) = .ok cfgs ∧
      mapE (fun i => moduleFromSmartImport i (.sync (.vobj []))) (c5Def.smartImports.getD []) = .ok imps ∧
      c5RunS.dynModule.importsOf = some (c5Def.imports.getD [] ++ (ims ++ cfgs ++ imps))) ∧
    (∃ ims insts cfgs imps,
      mapE (fun c => moduleFromSmartConfig c (.sync (.vobj []))) ([] : List AnySmartConfig) = .ok ims ∧
      mapE (fun c => instantiateAnyInline c (.vobj [])) ([] : List AnySmartConfig) = .ok insts ∧
      mapE (fun c => moduleFromSmartConfig c (.sync (.vobj [])))
        ((c5Fact ims insts).smartConfigs.getD []) = .ok cfgs ∧
      mapE (fun i => moduleFromSmartImport i (.sync (.vobj [])))
        ((c5Fact ims insts).smartImports.getD []) = .ok imps ∧
      c5RunF.dynModule.importsOf = some ((c5Fact ims insts).imports.getD [] ++ (ims ++ cfgs ++ imps))) ∧
    (∃ ims cfgs imps,
      mapE (fun c => moduleFromSmartConfig c (.async c5Async)) ([] : List AnySmartConfig) = .ok ims ∧
      mapE (fun c => moduleFromSmartConfig c (.async c5Async))
        ((c5Fact ims []).smartConfigs.getD []) = .ok cfgs ∧
      mapE (fun i => moduleFromSmartImport i (.async c5Async))
        ((c5Fact ims []).smartImports.getD []) = .ok imps ∧
      c5RunA.dynModule.importsOf = some ((c5Fact ims []).imports.getD [] ++ (ims ++ cfgs ++ imps)))) :=
  ⟨rfl, rfl, rfl,
    claim_C5_import_order [] c5Def c5Fact "" (.vobj []) c5Async (.sync (.vobj []))
      c5RunS c5RunF c5RunA rfl rfl rfl⟩

/-- C9: in factory form, under a sync root input the user factory receives
the inline synthetic modules together with the instantiated inline
configurations; under an async root input it receives the inline synthetic
modules only, with no instantiated configuration values. -/
theorem claim_C9_factory_arguments
    (inline : List AnySmartConfig) (f : List DynModule → List JSVal → ModuleDef)
    (nm : String) (v : JSVal) (a : AsyncParams) (rS rA : InvokeResult)
    (hS : invokeSmartModule inline (.factory f) nm (.sync v) = .ok rS)
    (hA : invokeSmartModule inline (.factory f) nm (.async a) = .ok rA) :
    (∃ ims insts,
      mapE (fun c => moduleFromSmartConfig c (.sync v)) inline = .ok ims ∧
      mapE (fun c => instantiateAnyInline c v) inline = .ok insts ∧
      ∀ call ∈ rS.factoryCalls, call = (ims, insts)) ∧
    (∃ ims,
      mapE (fun c => moduleFromSmartConfig c (.async a)) inline = .ok ims ∧
      ∀ call ∈ rA.factoryCalls, call = (ims, ([] : List JSVal))) := by
  constructor
  · obtain ⟨ims, insts, cfgs, imps, h1, h2, h3, h4, hr⟩ :=
      invoke_factory_sync_inv inline f nm v rS hS
    refine ⟨ims, insts, h1, h2, ?_⟩
    rw [hr]
    show ∀ call ∈ [(ims, insts), (ims, insts)], call = (ims, insts)
    intro call hc
    rcases List.mem_cons.mp hc with h | h
    · exact h
    · exact List.mem_singleton.mp h
  · obtain ⟨ims, cfgs, imps, h1, h2, h3, hr⟩ := invoke_factory_async_inv inline f nm a rA hA
    refine ⟨ims, h1, ?_⟩
    rw [hr]
    show ∀ call ∈ [(ims, ([] : List JSVal)), (ims, [])], call = (ims, [])
    intro call hc
    rcases List.mem_cons.mp hc with h | h
    · exact h
    · exact List.mem_singleton.mp h

def c9Schema : SmartConfig := ⟨"Config", none, none, none, [("value", JSVal.vstr "d")]⟩

def c9Fact : List DynModule → List JSVal → ModuleDef := fun _ _ =>
  ⟨none, none, none, none, none, none, none, none⟩

def c9Async : AsyncParams := ⟨none, none, fun _ => .ok (.vobj [])⟩

def c9Fallback : InvokeResult := ⟨.mk "" none none none none none, .factory c9Fact, []⟩

def c9RunS : InvokeResult :=
  (invokeSmartModule [.cls c9Schema] (.factory c9Fact) "" (.sync (.vobj []))).toOption.getD c9Fallback

def c9RunA : InvokeResult :=
  (invokeSmartModule [.cls c9Schema] (.factory c9Fact) "" (.async c9Async)).toOption.getD c9Fallback

theorem claim_C9_factory_arguments_witness :
    (invokeSmartModule [.cls c9Schema] (.factory c9Fact) "" (.sync (.vobj [])) = .ok c9RunS) ∧
    (invokeSmartModule [.cls c9Schema] (.factory c9Fact) "" (.async c9Async) = .ok c9RunA) ∧
    ((∃ ims insts,
      mapE (fun c => moduleFromSmartConfig c (.sync (.vobj []))) [AnySmartConfig.cls c9Schema] = .ok ims ∧
      mapE (fun c => instantiateAnyInline c (.vobj [])) [AnySmartConfig.cls c9Schema] = .ok insts ∧
      ∀ call ∈ c9RunS.factoryCalls, call = (ims, insts)) ∧
    (∃ ims,
      mapE (fun c => moduleFromSmartConfig c (.async c9Async)) [AnySmartConfig.cls c9Schema] = .ok ims ∧
      ∀ call ∈ c9RunA.factoryCalls, call = (ims, ([] : List JSVal)))) :=
  ⟨rfl, rfl, claim_C9_factory_arguments [.cls c9Schema] c9Fact "" (.vobj []) c9Async c9RunS c9RunA rfl rfl⟩

/-- C10: one successful invocation of a factory-form composition closure
calls the user factory exactly twice, and the two calls receive identical
arguments. -/
theorem claim_C10_factory_called_twice
    (inline : List AnySmartConfig) (f : List DynModule → List JSVal → ModuleDef)
    (nm : String) (arg : ArgInput) (r : InvokeResult)
    (h : invokeSmartModule inline (.factory f) nm arg = .ok r) :
    r.factoryCalls.length = 2 ∧ r.factoryCalls[0]? = r.factoryCalls[1]? := by
  cases arg with
  | sync v =>
      obtain ⟨ims, insts, cfgs, imps, h1, h2, h3, h4, hr⟩ :=
        invoke_factory_sync_inv inline f nm v r h
      rw [hr]
      exact ⟨rfl, rfl⟩
  | async a =>
      obtain ⟨ims, cfgs, imps, h1, h2, h3, hr⟩ := invoke_factory_async_inv inline f nm a r h
      rw [hr]
      exact ⟨rfl, rfl⟩

def c10Fact : List DynModule → List JSVal → ModuleDef := fun _ _ =>
  ⟨none, none, none, none, none, none, none, none⟩

def c10Fallback : InvokeResult := ⟨.mk "" none none none none none, .factory c10Fact, []⟩

def c10Run : InvokeResult :=
  (invokeSmartModule [] (.factory c10Fact) "" (.sync (.vobj []))).toOption.getD c10Fallback

theorem claim_C10_factory_called_twice_witness :
    (invokeSmartModule [] (.factory c10Fact) "" (.sync (.vobj [])) = .ok c10Run) ∧
    (c10Run.factoryCalls.length = 2 ∧ c10Run.factoryCalls[0]? = c10Run.factoryCalls[1]?) :=
  ⟨rfl, claim_C10_factory_called_twice [] c10Fact "" (.sync (.vobj [])) c10Run rfl⟩

def c2Schema : SmartConfig := ⟨"Config", none, none, none, [("value", JSVal.vstr "default")]⟩

def c2Ext : DynModule := .mk "ExternalModule" none none none none none

def c2Def : ModuleDef := ⟨none, some [c2Ext], none, none, none, none, some [.cls c2Schema], none⟩

def c2Fallback : InvokeResult := ⟨.mk "" none none none none none, .statDef c2Def, []⟩

def c2Run1 : InvokeResult :=
  (invokeSmartModule [] (.statDef c2Def) "" (.sync (.vobj []))).toOption.getD c2Fallback

def c2Run2 : InvokeResult :=
  (invokeSmartModule [] c2Run1.descr "" (.sync (.vobj []))).toOption.getD c2Fallback

/-- C2 counterexample: a static descriptor that declares an imports array is
mutated by an invocation — the synthetic modules are pushed into the declared
array through the shared reference — so a second call of the same closure
with an equal root input returns a tree with one more import entry than the
first call: the two trees are not structurally equal and the invocation is
not side-effect-free with respect to the descriptor. -/
theorem claim_C2_cex :
    (invokeSmartModule [] (.statDef c2Def) "" (.sync (.vobj [])) = .ok c2Run1) ∧
    (invokeSmartModule [] c2Run1.descr "" (.sync (.vobj [])) = .ok c2Run2) ∧
    (c2Run1.dynModule.importsOf.getD []).length = 2 ∧
    (c2Run2.dynModule.importsOf.getD []).length = 3 ∧
    c2Run1.descr ≠ .statDef c2Def ∧
    c2Run1.dynModule ≠ c2Run2.dynModule := by
  refine ⟨rfl, rfl, rfl, rfl, ?_, ?_⟩
  · intro h
    have h2 := congrArg (fun dd => match dd with
      | SmartModuleOrFactory.statDef x => (x.imports.getD []).length
      | SmartModuleOrFactory.factory _ => 0) h
    exact absurd h2 (by decide)
  · intro h
    have h2 := congrArg (fun m => ((DynModule.importsOf m).getD []).length) h
    exact absurd h2 (by decide)

/-- C2 (amended): an invocation never mutates a factory-form descriptor, and
never mutates a static descriptor that declares no imports array; in both of
those cases re-invoking the closure with an equal root input yields the very
same result. Only a static descriptor with a declared imports array is
mutated, as the counterexample shows. -/
theorem claim_C2_amended
    (inline : List AnySmartConfig) (d : ModuleDef)
    (f : List DynModule → List JSVal → ModuleDef) (nm : String) (arg : ArgInput)
    (r rf : InvokeResult)
    (hnone : d.imports = none)
    (h : invokeSmartModule inline (.statDef d) nm arg = .ok r)
    (hf : invokeSmartModule inline (.factory f) nm arg = .ok rf) :
    r.descr = .statDef d ∧
    invokeSmartModule inline r.descr nm arg = .ok r ∧
    rf.descr = .factory f ∧
    invokeSmartModule inline rf.descr nm arg = .ok rf := by
  obtain ⟨ims, cfgs, imps, h1, h2, h3, hr⟩ := invoke_statDef_inv inline d nm arg r h
  have hd : r.descr = .statDef d := by
    rw [hr]
    show SmartModuleOrFactory.statDef
      (appendImportsStat (createNamedClass (nm ++ "SmartModule")) d (ims ++ cfgs ++ imps)).2 = _
    unfold appendImportsStat
    rw [hnone]
  have hfd : rf.descr = .factory f := by
    cases arg with
    | sync v =>
        obtain ⟨_, _, _, _, _, _, _, _, hrf⟩ := invoke_factory_sync_inv inline f nm v rf hf
        rw [hrf]
    | async a =>
        obtain ⟨_, _, _, _, _, _, hrf⟩ := invoke_factory_async_inv inline f nm a rf hf
        rw [hrf]
  refine ⟨hd, ?_, hfd, ?_⟩
  · rw [hd]; exact h
  · rw [hfd]; exact hf

def c2wDef : ModuleDef := ⟨none, none, none, none, none, none, some [.cls c2Schema], none⟩

def c2wFact : List DynModule → List JSVal → ModuleDef := fun _ _ =>
  ⟨none, none, none, none, none, none, none, none⟩

def c2wRunS : InvokeResult :=
  (invokeSmartModule [] (.statDef c2wDef) "" (.sync (.vobj []))).toOption.getD c2Fallback

def c2wRunF : InvokeResult :=
  (invokeSmartModule [] (.factory c2wFact) "" (.sync (.vobj []))).toOption.getD c2Fallback

theorem claim_C2_amended_witness :
    c2wDef.imports = none ∧
    (invokeSmartModule [] (.statDef c2wDef) "" (.sync (.vobj [])) = .ok c2wRunS) ∧
    (invokeSmartModule [] (.factory c2wFact) "" (.sync (.vobj [])) = .ok c2wRunF) ∧
    (c2wRunS.descr = .statDef c2wDef ∧
     invokeSmartModule [] c2wRunS.descr "" (.sync (.vobj [])) = .ok c2wRunS ∧
     c2wRunF.descr = .factory c2wFact ∧
     invokeSmartModule [] c2wRunF.descr "" (.sync (.vobj [])) = .ok c2wRunF) :=
  ⟨rfl, rfl, rfl,
    claim_C2_amended [] c2wDef c2wFact "" (.sync (.vobj [])) c2wRunS c2wRunF rfl rfl rfl⟩

/-- C4: on an extracted input object, instantiation produces the spread of
the schema defaults with the defined-valued input entries: an input property
explicitly set to undefined does not override a schema default, a property
set to null does override it, an extra property not declared on the schema
is copied onto the instance, and when every input value is defined the
result agrees on every key with the plain spread of defaults then input. -/
theorem claim_C4_instantiate_merge (S : SmartConfig) (I : List (String × JSVal))
    (hD : (keysOf S.defaults).Nodup) (hI : (keysOf I).Nodup) :
    ∃ R, applyPropsToSmartConfig S (.vobj I) = .ok (.vobj R) ∧
      (∀ k d, jsLookup I k = some .undefined → jsLookup S.defaults k = some d →
        jsLookup R k = some d) ∧
      (∀ k, jsLookup I k = some .null → jsLookup R k = some .null) ∧
      (∀ k w, jsLookup S.defaults k = none → jsLookup I k = some w → isUndefined w = false →
        jsLookup R k = some w) ∧
      ((∀ kv ∈ I, isUndefined kv.2 = false) →
        ∀ k, jsLookup R k = jsLookup (objFromEntries (S.defaults ++ I)) k) := by
  have hF := nodup_keys_filter I (fun kv => !isUndefined kv.2) hI
  have master : ∀ k,
      jsLookup (objFromEntries (S.defaults ++ objFromEntries
        (I.filter (fun kv => !isUndefined kv.2)))) k =
      firstSome (jsLookup (I.filter (fun kv => !isUndefined kv.2)) k) (jsLookup S.defaults k) :=
    fun k => objFromEntries_append_lookup S.defaults (I.filter (fun kv => !isUndefined kv.2)) k hD hF
  have hfil : ∀ k, jsLookup (I.filter (fun kv => !isUndefined kv.2)) k =
      match jsLookup I k with
      | some w => if (!isUndefined w) then some w else none
      | none => none :=
    fun k => jsLookup_filter I (fun kv => !isUndefined kv.2) k hI
  refine ⟨objFromEntries (S.defaults ++ objFromEntries (I.filter (fun kv => !isUndefined kv.2))),
    rfl, ?_, ?_, ?_, ?_⟩
  · intro k d hIu hDk
    rw [master k, hfil k, hIu]
    simp [isUndefined, firstSome, hDk]
  · intro k hnull
    rw [master k, hfil k, hnull]
    simp [isUndefined, firstSome]
  · intro k w hDn hIw hw
    rw [master k, hfil k, hIw]
    simp [hw, firstSome]
  · intro hAll k
    have hfe : I.filter (fun kv => !isUndefined kv.2) = I :=
      List.filter_eq_self.mpr (fun kv hm => by rw [hAll kv hm]; rfl)
    rw [master k, hfe, objFromEntries_lookup (S.defaults ++ I) k, lastLookup_append,
      lastLookup_eq_jsLookup I k hI, lastLookup_eq_jsLookup S.defaults k hD]

def c4Schema : SmartConfig :=
  ⟨"Config", none, none, none,
    [("requiredProp", JSVal.undefined), ("defaultProp", JSVal.vstr "default")]⟩

def c4Input : List (String × JSVal) :=
  [("requiredProp", JSVal.vstr "test"), ("defaultProp", JSVal.undefined), ("extraProp", JSVal.null)]

theorem claim_C4_instantiate_merge_witness :
    (keysOf c4Schema.defaults).Nodup ∧ (keysOf c4Input).Nodup ∧
    (∃ R, applyPropsToSmartConfig c4Schema (.vobj c4Input) = .ok (.vobj R) ∧
      (∀ k d, jsLookup c4Input k = some .undefined → jsLookup c4Schema.defaults k = some d →
        jsLookup R k = some d) ∧
      (∀ k, jsLookup c4Input k = some .null → jsLookup R k = some .null) ∧
      (∀ k w, jsLookup c4Schema.defaults k = none → jsLookup c4Input k = some w →
        isUndefined w = false → jsLookup R k = some w) ∧
      ((∀ kv ∈ c4Input, isUndefined kv.2 = false) →
        ∀ k, jsLookup R k = jsLookup (objFromEntries (c4Schema.defaults ++ c4Input)) k)) :=
  ⟨by decide, by decide, claim_C4_instantiate_merge c4Schema c4Input (by decide) (by decide)⟩
